import Mathlib

/-!
Shallow embedding of the `cvat_reader` package (file `cvat_reader/_base.py`,
with the video backends `cvat_reader/video_reader/cv2_reader.py` and
`cvat_reader/video_reader/dummy_reader.py`).

Conventions of the embedding:
* Python integers become `ℤ`.
* Python float arithmetic (the interpolation ratio) is modelled by exact
  rational arithmetic over `ℚ`; `int(x)` applied to a float is truncation
  toward zero, modelled by `truncQ`.
* The class `Annotation` is embedded as the structure `Annot` (shortened
  name; fields keep the source names), and `Track.get_annotation` is embedded
  as `Track.getAnnot`.
* The free-form `attributes` dict is modelled as an association list of
  strings; it is only ever copied verbatim, never inspected.
* Fallible code returns `Except String`; the message records the Python
  exception that the corresponding source line would raise.
-/

/-- Truncation toward zero of a rational number: the meaning of Python's
`int(x)` applied to a numeric value. -/
def truncQ (q : ℚ) : ℤ := if 0 ≤ q then ⌊q⌋ else ⌈q⌉

/-- One labelled rectangle observation at one frame: the dataclass
`Annotation` of `_base.py` (shortened name `Annot`, same fields). -/
structure Annot where
  frame_id : ℤ
  track_id : ℤ
  label : String
  bounding_box : (ℤ × ℤ) × (ℤ × ℤ)
  occluded : Bool
  outside : Bool
  attributes : List (String × String)
  interpolated : Bool
deriving DecidableEq, Repr

instance : Inhabited Annot :=
  ⟨⟨0, 0, "", ((0, 0), (0, 0)), false, false, [], false⟩⟩

/-- The `relative_offset` computed at the top of
`Annotation.from_interpolation`:
`(frame_id - begin_annotation.frame_id) / (end_annotation.frame_id - begin_annotation.frame_id)`,
a Python float division of two integers, modelled exactly in `ℚ`. -/
def relOffset (b e : Annot) (fid : ℤ) : ℚ :=
  (((fid : ℚ) - (b.frame_id : ℚ))) / (((e.frame_id : ℚ) - (b.frame_id : ℚ)))

/-- `Annotation.from_interpolation` of `_base.py`.  Each bounding-box
coordinate is
`int((end_coord - begin_coord) * relative_offset + begin_coord)`:
note that the truncating cast is applied to the whole sum, after the begin
coordinate has been added.  All non-geometric fields are copied from the
begin keyframe, `frame_id` is the query frame and `interpolated` is set. -/
def Annot.from_interpolation (b e : Annot) (fid : ℤ) : Annot :=
  { frame_id := fid
    track_id := b.track_id
    label := b.label
    occluded := b.occluded
    outside := b.outside
    attributes := b.attributes
    interpolated := true
    bounding_box :=
      ((truncQ (((e.bounding_box.1.1 : ℚ) - (b.bounding_box.1.1 : ℚ)) *
            relOffset b e fid + (b.bounding_box.1.1 : ℚ)),
        truncQ (((e.bounding_box.1.2 : ℚ) - (b.bounding_box.1.2 : ℚ)) *
            relOffset b e fid + (b.bounding_box.1.2 : ℚ))),
       (truncQ (((e.bounding_box.2.1 : ℚ) - (b.bounding_box.2.1 : ℚ)) *
            relOffset b e fid + (b.bounding_box.2.1 : ℚ)),
        truncQ (((e.bounding_box.2.2 : ℚ) - (b.bounding_box.2.2 : ℚ)) *
            relOffset b e fid + (b.bounding_box.2.2 : ℚ)))) }

/-- The per-coordinate interpolation formula exactly as the specification
words it: `begin_coord + trunc_toward_zero((end_coord - begin_coord) * t)`,
with truncation applied to the scaled delta before the begin coordinate is
added.  Written from the spec's words, to be compared with the coordinate
computed by `Annot.from_interpolation`. -/
def claimInterpCoord (bc ec : ℤ) (t : ℚ) : ℤ :=
  bc + truncQ (((ec : ℚ) - (bc : ℚ)) * t)

/-- Begin keyframe of the concrete input refuting C1: frame 0, first corner
x-coordinate 3. -/
def cexBegin : Annot :=
  ⟨0, 0, "person", ((3, 0), (0, 0)), false, false, [], false⟩

/-- End keyframe of the concrete input refuting C1: frame 2, first corner
x-coordinate 2 (the box moves left, so the scaled delta is negative). -/
def cexEnd : Annot :=
  ⟨2, 0, "person", ((2, 0), (0, 0)), false, false, [], false⟩

/-- Begin keyframe of the spec's linearity example: frame 0,
box `((0,0),(10,10))`. -/
def wBegin : Annot :=
  ⟨0, 7, "person", ((0, 0), (10, 10)), true, false, [("color", "red")], false⟩

/-- End keyframe of the spec's linearity example: frame 10,
box `((10,10),(20,20))`. -/
def wEnd : Annot :=
  ⟨10, 7, "person", ((10, 10), (20, 20)), false, true, [], false⟩

/-- The dataclass `Track` of `_base.py`: a track id and the ordered list of
keyframe Annotations. -/
structure Track where
  track_id : ℤ
  annotations : List Annot
deriving DecidableEq, Repr

/-- `Track.first_frame_id`: `self.annotations[0].frame_id`.  On an empty list
the Python source raises IndexError; the embedding totalises with the default
Annotation (every claim about Tracks assumes a non-empty list, which the
Dataset constructor guarantees). -/
def Track.first_frame_id (t : Track) : ℤ := (t.annotations.headD default).frame_id

/-- `Track.last_frame_id`: `self.annotations[-1].frame_id` (same totalisation
remark as for `Track.first_frame_id`). -/
def Track.last_frame_id (t : Track) : ℤ := (t.annotations.getLastD default).frame_id

/-- The `for i, annotation in enumerate(self.annotations)` loop of
`Track.get_annotation`, with the previous element `self.annotations[i - 1]`
carried as `prev`.  At `i = 0` Python's `annotations[i - 1]` is
`annotations[-1]`, the last element, which is what the initial call passes.
The `[]` case is the `return None` after the loop
(commented `This shouldn't happen` in the source). -/
def getAnnotLoop (fid : ℤ) : Annot → List Annot → Option Annot
  | _, [] => none
  | prev, a :: rest =>
    if a.frame_id = fid then some a
    else if a.frame_id > fid then some (Annot.from_interpolation prev a fid)
    else getAnnotLoop fid a rest

/-- `Track.get_annotation` of `_base.py` (shortened name `getAnnot`): range
checks against `first_frame_id`/`last_frame_id`, then the scan loop. -/
def Track.getAnnot (t : Track) (fid : ℤ) : Option Annot :=
  if fid < t.first_frame_id then none
  else if fid > t.last_frame_id then none
  else getAnnotLoop fid (t.annotations.getLastD default) t.annotations

/-- The spec's Track invariant: the annotation list is strictly increasing by
`frame_id`. -/
def FrameSorted (l : List Annot) : Prop :=
  l.Pairwise (fun a b => a.frame_id < b.frame_id)

instance (l : List Annot) : Decidable (FrameSorted l) :=
  inferInstanceAs (Decidable (l.Pairwise _))

/-- Concrete two-keyframe track used by the claim witnesses. -/
def wTrack : Track := ⟨7, [wBegin, wEnd]⟩

/-- The spec's notion of coverage: a Track covers a frame id when that id
falls between its first and last keyframe, inclusive. -/
def covers (t : Track) (fid : ℤ) : Prop :=
  t.first_frame_id ≤ fid ∧ fid ≤ t.last_frame_id

instance (t : Track) (fid : ℤ) : Decidable (covers t fid) :=
  inferInstanceAs (Decidable (_ ∧ _))

/-- The annotation list assembled by `Dataset.__next__`:
`[track.get_annotation(frame_id) for track in self.tracks if track]` (the
`if track` guard is dataclass truthiness and always holds), then
`[annotation for annotation in annotations if annotation]`, which keeps
exactly the non-`None` results. -/
def annotationsAt (tracks : List Track) (fid : ℤ) : List Annot :=
  (tracks.map (fun t => Track.getAnnot t fid)).filterMap id

/-- The shape type string recognised by `Dataset.__init__`. -/
def rectType : String := "rectangle"

/-- One raw shape record of `annotations.json`
(`frame`, `type`, `points` as the four numbers `x1, y1, x2, y2`, `occluded`,
`outside`, `attributes`), as consumed by `Dataset.__init__`. -/
structure RawShape where
  frame : ℤ
  type : String
  points : ℚ × ℚ × ℚ × ℚ
  occluded : Bool
  outside : Bool
  attributes : List (String × String)
deriving DecidableEq, Repr

/-- One raw track record of `annotations.json`: a `label` and its `shapes`. -/
structure RawTrack where
  label : String
  shapes : List RawShape
deriving DecidableEq, Repr

/-- The Annotation built by `Dataset.__init__` for one rectangle shape:
`x1, y1, x2, y2 = shape["points"]`, bounding box
`((int(x1), int(y1)), (int(x2), int(y2)))`, `interpolated = False`, the rest
copied from the shape record (and `label` from the track record). -/
def shapeAnnot (tid : ℤ) (lbl : String) (s : RawShape) : Annot :=
  { frame_id := s.frame
    track_id := tid
    label := lbl
    bounding_box := ((truncQ s.points.1, truncQ s.points.2.1),
                     (truncQ s.points.2.2.1, truncQ s.points.2.2.2))
    interpolated := false
    occluded := s.occluded
    outside := s.outside
    attributes := s.attributes }

/-- The inner `for shape in track["shapes"]` loop of `Dataset.__init__`:
rectangle shapes become Annotations, any other type is skipped (the source
only logs a debug message for it). -/
def buildAnnots (tid : ℤ) (lbl : String) : List RawShape → List Annot
  | [] => []
  | s :: rest =>
    if s.type = rectType then shapeAnnot tid lbl s :: buildAnnots tid lbl rest
    else buildAnnots tid lbl rest

/-- The outer `for track_id, track in enumerate(...)` loop of
`Dataset.__init__`, carrying the enumeration counter `i`: a Track is appended
only when its surviving annotation list is non-empty (`if annotations:`). -/
def buildTracksFrom : ℤ → List RawTrack → List Track
  | _, [] => []
  | i, r :: rest =>
    if buildAnnots i r.label r.shapes = [] then buildTracksFrom (i + 1) rest
    else ⟨i, buildAnnots i r.label r.shapes⟩ :: buildTracksFrom (i + 1) rest

/-- Track construction over all raw track records, with `enumerate` starting
at 0. -/
def buildTracks (raws : List RawTrack) : List Track := buildTracksFrom 0 raws

/-- A rectangle shape at frame 0 with box `((1, 2), (3, 4))`. -/
def sRect : RawShape := ⟨0, "rectangle", (1, 2, 3, 4), false, false, []⟩

/-- A polygon shape, which construction must drop. -/
def sPoly : RawShape := ⟨5, "polygon", (0, 0, 0, 0), false, false, []⟩

/-- A raw track record with one rectangle shape and one polygon shape. -/
def rMixed : RawTrack := ⟨"car", [sRect, sPoly]⟩

/-- `max(track.last_frame_id for track in self.tracks)`: Python's `max`
raises ValueError on an empty generator, modelled as `none`. -/
def maxLastFrame : List Track → Option ℤ
  | [] => none
  | t :: ts => some (ts.foldl (fun m u => max m u.last_frame_id) t.last_frame_id)

/-- The message of the ValueError that `max` raises on an empty sequence. -/
def valueErrorMsg : String := "ValueError: max() arg is an empty sequence"

/-- The Dataset state relevant to the claims: the surviving tracks and the
`last_frame_id` bound computed at the end of `Dataset.__init__` (the label
catalog and video path are opaque passthroughs and carry no invariant). -/
structure Dataset where
  tracks : List Track
  last_frame_id : ℤ
deriving Repr

/-- The annotation-processing part of `Dataset.__init__`: build the tracks
from the raw records, then compute `last_frame_id`; the `max(...)` call
raises when no track survived. -/
def datasetInit (raws : List RawTrack) : Except String Dataset :=
  match maxLastFrame (buildTracks raws) with
  | none => Except.error valueErrorMsg
  | some m => Except.ok ⟨buildTracks raws, m⟩

/-- The Frame produced by one successful `Dataset.__next__`: the frame id,
the (opaque, possibly absent) decoded image and the resolved annotations. -/
structure FrameOut where
  frame_id : ℤ
  image : Option Unit
  annots : List Annot
deriving DecidableEq, Repr

/-- Outcome of one `Dataset.__next__` call: a yielded Frame, StopIteration,
or the uncaught TypeError that Python 3 raises when `frame_id` is `None` in
the comparison `frame_id > self.last_frame_id`. -/
inductive NextOutcome where
  | yield (f : FrameOut)
  | stop
  | typeError
deriving DecidableEq, Repr

/-- `Dataset.__next__` of `_base.py`, as a function of the pair returned by
`video_reader.read_frame()`.  The source compares
`frame_id > self.last_frame_id` unconditionally; when the reader signalled
end-of-stream with `frame_id = None`, that comparison between `NoneType` and
`int` raises TypeError in Python 3 (it is not caught anywhere). -/
def datasetNext (d : Dataset) (read : Option ℤ × Option Unit) : NextOutcome :=
  match read.1 with
  | none => NextOutcome.typeError
  | some fid =>
    if fid > d.last_frame_id then NextOutcome.stop
    else NextOutcome.yield ⟨fid, read.2, annotationsAt d.tracks fid⟩

/-- State of the cv2 capture behind `CV2Reader`: how many frames the video
has and the current decode position. -/
structure CV2State where
  frameCount : ℤ
  pos : ℤ
deriving DecidableEq, Repr

/-- `CV2Reader.read_frame`: report the current position and the decoded
image while frames remain; at end-of-stream (or decode failure) `read()`
fails and the method returns `(None, None)`. -/
def cv2ReadFrame (s : CV2State) : (Option ℤ × Option Unit) × CV2State :=
  if s.pos < s.frameCount then ((some s.pos, some ()), ⟨s.frameCount, s.pos + 1⟩)
  else ((none, none), s)

/-- The concrete track of the C3 failing input: keyframes at frames 0
and 10. -/
def tEx : Track := ⟨0, [wBegin, wEnd]⟩

/-- The concrete Dataset of the C3 failing input: one track, last annotated
frame 10. -/
def dEx : Dataset := ⟨[tEx], 10⟩

/-- `DummyVideoReader.read_frame`: return the current counter with no image
and advance the counter; it never returns `None`. -/
def dummyReadFrame (s : ℤ) : (Option ℤ × Option Unit) × ℤ := ((some s, none), s + 1)

/-- `DummyVideoReader.seek`: reset the counter to the target frame. -/
def dummySeek (s fid : ℤ) : ℤ := fid

/-- `DummyVideoReader.__init__`: the counter starts at 0. -/
def dummyInitState : ℤ := 0

/-- Iterating `Dataset.__next__` with the dummy reader from counter `c`:
the list of Frames yielded before iteration stops.  With the dummy reader
`read_frame` always returns `(c, None)`, so the only exit is the
`frame_id > last_frame_id` check. -/
def dummyRun (d : Dataset) (c : ℤ) : List FrameOut :=
  if c > d.last_frame_id then []
  else ⟨c, none, annotationsAt d.tracks c⟩ :: dummyRun d (c + 1)
termination_by (d.last_frame_id + 1 - c).toNat
decreasing_by
  simp only [not_lt] at *
  omega

/-- The frame ids `c, c + 1, ..., last` (empty when `c > last`). -/
def frameIdsFromTo (c last : ℤ) : List ℤ :=
  if c > last then [] else c :: frameIdsFromTo (c + 1) last
termination_by (last + 1 - c).toNat
decreasing_by
  simp only [not_lt] at *
  omega

/-- Calling `.release()` on the capture attribute: succeeds on a live
capture; on `None` Python would raise AttributeError (the guard in
`CV2Reader.close` exists to prevent exactly this call). -/
def captureRelease : Option Unit → Except String (List String)
  | some _ => Except.ok ["release"]
  | none => Except.error ("AttributeError: NoneType object has no attribute")

/-- `CV2Reader.close`: `if self.capture: self.capture.release();
self.capture = None`.  Returns the new capture attribute together with the
effects performed; the falsy guard skips the body entirely. -/
def cv2Close (cap : Option Unit) : Except String (Option Unit × List String) :=
  match cap with
  | some c => (captureRelease (some c)).map (fun acts => (none, acts))
  | none => Except.ok (none, [])

/-- `VideoReader.close` inherited by `DummyVideoReader`: `pass`. -/
def dummyClose (s : ℤ) : Except String (ℤ × List String) := Except.ok (s, [])

/-- The video-reader state a Dataset may hold: a real cv2 capture attribute
or the dummy counter (selected by `load_video` at construction). -/
inductive ReaderState where
  | cv2 (cap : Option Unit)
  | dummy (counter : ℤ)
deriving DecidableEq, Repr

/-- `Dataset.close`: delegate to `self.video_reader.close()` (also invoked
implicitly by `__del__`). -/
def datasetClose : ReaderState → Except String (ReaderState × List String)
  | ReaderState.cv2 cap =>
    (cv2Close cap).map (fun p => (ReaderState.cv2 p.1, p.2))
  | ReaderState.dummy s =>
    (dummyClose s).map (fun p => (ReaderState.dummy p.1, p.2))

/-- When the argument is nonnegative, truncation toward zero is the floor. -/
theorem truncQ_of_nonneg {q : ℚ} (h : 0 ≤ q) : truncQ q = ⌊q⌋ := by
  simp [truncQ, h]

/-- C1, counterexample.  At `begin = (frame 0, x = 3)`, `end = (frame 2, x = 2)`
and query frame 1 we have `t = 1/2` (exactly representable in floating point,
so the rational model agrees with Python's float arithmetic here).  The code
computes `int((2 - 3) * 0.5 + 3) = int(2.5) = 2`, while the claim's formula
`begin + trunc((end - begin) * t) = 3 + trunc(-0.5) = 3 + 0 = 3` gives 3:
the interpolated x-coordinate does not equal the claim's formula. -/
theorem c1_trunc_counterexample :
    relOffset cexBegin cexEnd 1 = 1 / 2 ∧
    (Annot.from_interpolation cexBegin cexEnd 1).bounding_box.1.1 = 2 ∧
    claimInterpCoord cexBegin.bounding_box.1.1 cexEnd.bounding_box.1.1
      (relOffset cexBegin cexEnd 1) = 3 ∧
    (Annot.from_interpolation cexBegin cexEnd 1).bounding_box.1.1 ≠
      claimInterpCoord cexBegin.bounding_box.1.1 cexEnd.bounding_box.1.1
        (relOffset cexBegin cexEnd 1) := by
  have h1 : relOffset cexBegin cexEnd 1 = 1 / 2 := by
    norm_num [relOffset, cexBegin, cexEnd]
  have h2 : (Annot.from_interpolation cexBegin cexEnd 1).bounding_box.1.1 = 2 := by
    norm_num [relOffset, cexBegin, cexEnd, Annot.from_interpolation, truncQ]
  have h3 : claimInterpCoord cexBegin.bounding_box.1.1 cexEnd.bounding_box.1.1
      (relOffset cexBegin cexEnd 1) = 3 := by
    norm_num [relOffset, cexBegin, cexEnd, claimInterpCoord, truncQ]
  exact ⟨h1, h2, h3, by rw [h2, h3]; decide⟩

/-- C1 (amended).  For a query strictly between the two keyframes, every
bounding-box coordinate produced by `Annot.from_interpolation` equals
`trunc_toward_zero((end_coord - begin_coord) * t + begin_coord)`: the
truncation is applied to the whole sum, not to the scaled delta alone.
Moreover, whenever the begin coordinate is nonnegative and the coordinate
does not decrease from begin to end (so the scaled delta is nonnegative),
this agrees with the claim's formula
`begin_coord + trunc_toward_zero((end_coord - begin_coord) * t)`. -/
theorem c1_interp_trunc_of_sum (b e : Annot) (fid : ℤ)
    (hb : b.frame_id < fid) (he : fid < e.frame_id) :
    (Annot.from_interpolation b e fid).bounding_box =
      ((truncQ (((e.bounding_box.1.1 : ℚ) - (b.bounding_box.1.1 : ℚ)) *
            relOffset b e fid + (b.bounding_box.1.1 : ℚ)),
        truncQ (((e.bounding_box.1.2 : ℚ) - (b.bounding_box.1.2 : ℚ)) *
            relOffset b e fid + (b.bounding_box.1.2 : ℚ))),
       (truncQ (((e.bounding_box.2.1 : ℚ) - (b.bounding_box.2.1 : ℚ)) *
            relOffset b e fid + (b.bounding_box.2.1 : ℚ)),
        truncQ (((e.bounding_box.2.2 : ℚ) - (b.bounding_box.2.2 : ℚ)) *
            relOffset b e fid + (b.bounding_box.2.2 : ℚ)))) ∧
    (∀ bc ec : ℤ, 0 ≤ bc → bc ≤ ec →
      truncQ (((ec : ℚ) - (bc : ℚ)) * relOffset b e fid + (bc : ℚ)) =
        claimInterpCoord bc ec (relOffset b e fid)) := by
  have ht : 0 ≤ relOffset b e fid := by
    have hcast1 : ((b.frame_id : ℚ)) ≤ (fid : ℚ) := by exact_mod_cast hb.le
    have hcast2 : ((b.frame_id : ℚ)) ≤ (e.frame_id : ℚ) := by
      exact_mod_cast (le_trans hb.le he.le)
    exact div_nonneg (by linarith) (by linarith)
  refine ⟨rfl, ?_⟩
  intro bc ec hbc hle
  have hdelta : (0 : ℚ) ≤ (ec : ℚ) - (bc : ℚ) := by
    have hcast : ((bc : ℚ)) ≤ (ec : ℚ) := by exact_mod_cast hle
    linarith
  have hq : (0 : ℚ) ≤ ((ec : ℚ) - (bc : ℚ)) * relOffset b e fid :=
    mul_nonneg hdelta ht
  have hsum : (0 : ℚ) ≤ ((ec : ℚ) - (bc : ℚ)) * relOffset b e fid + (bc : ℚ) := by
    have : (0 : ℚ) ≤ (bc : ℚ) := by exact_mod_cast hbc
    linarith
  rw [truncQ_of_nonneg hsum, claimInterpCoord, truncQ_of_nonneg hq,
    Int.floor_add_int]
  ring

/-- Witness for C1 (amended) at the spec's linearity example: the hypotheses
hold at `begin = wBegin`, `end = wEnd`, query frame 5, and the conclusion is
obtained by applying the theorem there. -/
theorem c1_interp_trunc_of_sum_witness :
    wBegin.frame_id < 5 ∧ (5 : ℤ) < wEnd.frame_id ∧
    (Annot.from_interpolation wBegin wEnd 5).bounding_box =
      ((truncQ (((wEnd.bounding_box.1.1 : ℚ) - (wBegin.bounding_box.1.1 : ℚ)) *
            relOffset wBegin wEnd 5 + (wBegin.bounding_box.1.1 : ℚ)),
        truncQ (((wEnd.bounding_box.1.2 : ℚ) - (wBegin.bounding_box.1.2 : ℚ)) *
            relOffset wBegin wEnd 5 + (wBegin.bounding_box.1.2 : ℚ))),
       (truncQ (((wEnd.bounding_box.2.1 : ℚ) - (wBegin.bounding_box.2.1 : ℚ)) *
            relOffset wBegin wEnd 5 + (wBegin.bounding_box.2.1 : ℚ)),
        truncQ (((wEnd.bounding_box.2.2 : ℚ) - (wBegin.bounding_box.2.2 : ℚ)) *
            relOffset wBegin wEnd 5 + (wBegin.bounding_box.2.2 : ℚ)))) :=
  ⟨by decide, by decide,
    (c1_interp_trunc_of_sum wBegin wEnd 5 (by decide) (by decide)).1⟩

/-- C4.  Every Annotation produced by `Annot.from_interpolation` has `label`,
`track_id`, `occluded`, `outside` and `attributes` copied verbatim from the
begin keyframe, its `frame_id` equal to the query frame, and `interpolated`
set to `true`. -/
theorem c4_interp_field_inheritance (b e : Annot) (fid : ℤ) :
    (Annot.from_interpolation b e fid).label = b.label ∧
    (Annot.from_interpolation b e fid).track_id = b.track_id ∧
    (Annot.from_interpolation b e fid).occluded = b.occluded ∧
    (Annot.from_interpolation b e fid).outside = b.outside ∧
    (Annot.from_interpolation b e fid).attributes = b.attributes ∧
    (Annot.from_interpolation b e fid).frame_id = fid ∧
    (Annot.from_interpolation b e fid).interpolated = true :=
  ⟨rfl, rfl, rfl, rfl, rfl, rfl, rfl⟩

/-- The last element of a non-empty list is a member (`getLastD` form). -/
theorem getLastD_mem_of_ne_nil (l : List Annot) (d : Annot) (h : l ≠ []) :
    l.getLastD d ∈ l := by
  induction l generalizing d with
  | nil => exact absurd rfl h
  | cons a rest ih =>
    rw [List.getLastD_cons]
    cases rest with
    | nil => simp
    | cons b r => exact List.mem_cons_of_mem a (ih a (by simp))

/-- In a strictly increasing list, every member's frame id is bounded by the
last element's. -/
theorem frame_le_getLastD (l : List Annot) (d : Annot) (hs : FrameSorted l)
    (a : Annot) (ha : a ∈ l) : a.frame_id ≤ (l.getLastD d).frame_id := by
  induction l generalizing d with
  | nil => cases ha
  | cons x rest ih =>
    rw [List.getLastD_cons]
    rw [FrameSorted, List.pairwise_cons] at hs
    cases List.mem_cons.mp ha with
    | inl hax =>
      subst hax
      cases rest with
      | nil => simp
      | cons b r =>
        have hmem := getLastD_mem_of_ne_nil (b :: r) a (by simp)
        exact le_of_lt (hs.1 _ hmem)
    | inr harest =>
      cases rest with
      | nil => cases harest
      | cons b r => exact ih x hs.2 harest

/-- In a strictly increasing list, every member's frame id is at least the
head's. -/
theorem headD_frame_le (l : List Annot) (hs : FrameSorted l)
    (a : Annot) (ha : a ∈ l) : (l.headD default).frame_id ≤ a.frame_id := by
  cases l with
  | nil => cases ha
  | cons x rest =>
    rw [FrameSorted, List.pairwise_cons] at hs
    cases List.mem_cons.mp ha with
    | inl hax => subst hax; simp
    | inr harest => simpa using le_of_lt (hs.1 a harest)

/-- The scan loop returns a value as soon as the tail it scans is non-empty
and ends at or beyond the query frame. -/
theorem getAnnotLoop_isSome (fid : ℤ) (prev : Annot) (l : List Annot)
    (hne : l ≠ []) (hlast : fid ≤ (l.getLastD default).frame_id) :
    (getAnnotLoop fid prev l).isSome = true := by
  induction l generalizing prev with
  | nil => exact absurd rfl hne
  | cons a rest ih =>
    rw [getAnnotLoop]
    by_cases h1 : a.frame_id = fid
    · simp [h1]
    · rw [if_neg h1]
      by_cases h2 : a.frame_id > fid
      · simp [h2]
      · rw [if_neg h2]
        cases rest with
        | nil =>
          exfalso
          rw [List.getLastD_cons, List.getLastD_nil] at hlast
          omega
        | cons b r =>
          refine ih a (by simp) ?_
          rw [List.getLastD_cons] at hlast
          calc fid ≤ ((b :: r).getLastD a).frame_id := hlast
            _ = ((b :: r).getLastD default).frame_id := by
                rw [List.getLastD_cons, List.getLastD_cons]

/-- C2.  For a Track with a non-empty, strictly increasing annotation list,
`getAnnot` returns a value exactly when the query lies in the closed interval
`[first_frame_id, last_frame_id]`; outside it returns `none` (so the
fall-through `return None` after the scan is never the branch taken for an
in-range query). -/
theorem c2_coverage_iff (t : Track) (fid : ℤ)
    (hne : t.annotations ≠ []) (hs : FrameSorted t.annotations) :
    (Track.getAnnot t fid).isSome = true ↔
      t.first_frame_id ≤ fid ∧ fid ≤ t.last_frame_id := by
  constructor
  · intro hsome
    by_contra hout
    rw [Track.getAnnot] at hsome
    by_cases hlt : fid < t.first_frame_id
    · rw [if_pos hlt] at hsome
      simp at hsome
    · rw [if_neg hlt] at hsome
      by_cases hgt : fid > t.last_frame_id
      · rw [if_pos hgt] at hsome
        simp at hsome
      · exact hout ⟨by omega, by omega⟩
  · rintro ⟨hlo, hhi⟩
    rw [Track.getAnnot, if_neg (by omega), if_neg (by omega)]
    exact getAnnotLoop_isSome fid _ t.annotations hne
      (by rw [Track.last_frame_id] at hhi; exact hhi)

/-- Witness for C2 at a concrete track and the in-range query frame 5. -/
theorem c2_coverage_iff_witness :
    wTrack.annotations ≠ [] ∧ FrameSorted wTrack.annotations ∧
    ((Track.getAnnot wTrack 5).isSome = true ↔
      wTrack.first_frame_id ≤ 5 ∧ (5 : ℤ) ≤ wTrack.last_frame_id) :=
  ⟨by decide, by decide, c2_coverage_iff wTrack 5 (by decide) (by decide)⟩

/-- On a strictly increasing list containing `a`, the scan loop at query
`a.frame_id` returns exactly `a`, whatever `prev` it starts from. -/
theorem getAnnotLoop_exact (fid : ℤ) (prev : Annot) (l : List Annot)
    (hs : FrameSorted l) (a : Annot) (ha : a ∈ l) (hfid : a.frame_id = fid) :
    getAnnotLoop fid prev l = some a := by
  induction l generalizing prev with
  | nil => cases ha
  | cons x rest ih =>
    rw [FrameSorted, List.pairwise_cons] at hs
    rw [getAnnotLoop]
    cases List.mem_cons.mp ha with
    | inl hax =>
      subst hax
      rw [if_pos hfid]
    | inr harest =>
      have hx : x.frame_id < a.frame_id := hs.1 a harest
      rw [if_neg (by omega), if_neg (by omega)]
      exact ih x hs.2 harest

/-- C5.  If the queried frame id is exactly the frame id of a stored keyframe
of a strictly increasing Track, `getAnnot` returns that stored Annotation
itself, unmodified (in particular with `interpolated = false` as stored). -/
theorem c5_exact_keyframe (t : Track) (a : Annot)
    (hs : FrameSorted t.annotations) (ha : a ∈ t.annotations) :
    Track.getAnnot t a.frame_id = some a := by
  have hlo : t.first_frame_id ≤ a.frame_id := headD_frame_le _ hs a ha
  have hhi : a.frame_id ≤ t.last_frame_id := frame_le_getLastD _ _ hs a ha
  rw [Track.getAnnot, if_neg (by omega), if_neg (by omega)]
  exact getAnnotLoop_exact _ _ _ hs a ha rfl

/-- Witness for C5: on the concrete two-keyframe track, querying the second
keyframe's frame id returns that keyframe itself. -/
theorem c5_exact_keyframe_witness :
    FrameSorted wTrack.annotations ∧ wEnd ∈ wTrack.annotations ∧
    Track.getAnnot wTrack wEnd.frame_id = some wEnd :=
  ⟨by decide, by decide, c5_exact_keyframe wTrack wEnd (by decide) (by decide)⟩

/-- Shared helper: for a Track with a non-empty annotation list, the scan
returns a value exactly on covered frame ids. -/
theorem getAnnot_isSome_iff (t : Track) (fid : ℤ) (hne : t.annotations ≠ []) :
    (Track.getAnnot t fid).isSome = true ↔ covers t fid := by
  constructor
  · intro hsome
    by_contra hout
    rw [Track.getAnnot] at hsome
    by_cases hlt : fid < t.first_frame_id
    · rw [if_pos hlt] at hsome
      simp at hsome
    · rw [if_neg hlt] at hsome
      by_cases hgt : fid > t.last_frame_id
      · rw [if_pos hgt] at hsome
        simp at hsome
      · exact hout ⟨by omega, by omega⟩
  · rintro ⟨hlo, hhi⟩
    rw [Track.getAnnot, if_neg (by omega), if_neg (by omega)]
    exact getAnnotLoop_isSome fid _ t.annotations hne
      (by rw [Track.last_frame_id] at hhi; exact hhi)

/-- Any value the scan loop returns carries the queried frame id: an exact
match has it by the test, an interpolated value by construction. -/
theorem getAnnotLoop_frame (fid : ℤ) (prev : Annot) (l : List Annot)
    (a : Annot) (h : getAnnotLoop fid prev l = some a) : a.frame_id = fid := by
  induction l generalizing prev with
  | nil => simp [getAnnotLoop] at h
  | cons x rest ih =>
    rw [getAnnotLoop] at h
    by_cases h1 : x.frame_id = fid
    · rw [if_pos h1] at h
      obtain rfl : x = a := Option.some.inj h
      exact h1
    · rw [if_neg h1] at h
      by_cases h2 : x.frame_id > fid
      · rw [if_pos h2] at h
        obtain rfl : Annot.from_interpolation prev x fid = a := Option.some.inj h
        rfl
      · rw [if_neg h2] at h
        exact ih x h

/-- Any value `Track.getAnnot` returns carries the queried frame id. -/
theorem getAnnot_frame (t : Track) (fid : ℤ) (a : Annot)
    (h : Track.getAnnot t fid = some a) : a.frame_id = fid := by
  rw [Track.getAnnot] at h
  by_cases hlt : fid < t.first_frame_id
  · rw [if_pos hlt] at h
    cases h
  · rw [if_neg hlt] at h
    by_cases hgt : fid > t.last_frame_id
    · rw [if_pos hgt] at h
      cases h
    · rw [if_neg hgt] at h
      exact getAnnotLoop_frame fid _ _ a h

/-- Shared helper: the assembled list has one entry per covering track. -/
theorem annotationsAt_length (tracks : List Track) (fid : ℤ)
    (hne : ∀ t ∈ tracks, t.annotations ≠ []) :
    (annotationsAt tracks fid).length =
      tracks.countP (fun t => decide (covers t fid)) := by
  induction tracks with
  | nil => rfl
  | cons t ts ih =>
    have hiff := getAnnot_isSome_iff t fid (hne t (by simp))
    have hrest := ih (fun u hu => hne u (List.mem_cons_of_mem t hu))
    rw [annotationsAt, List.map_cons, List.filterMap_cons, List.countP_cons]
    cases hval : Track.getAnnot t fid with
    | none =>
      have hcov : ¬ covers t fid := by
        rw [← hiff, hval]
        simp
      simp only [id]
      rw [annotationsAt] at hrest
      rw [hrest]
      simp [hcov]
    | some a =>
      have hcov : covers t fid := by
        rw [← hiff, hval]
        rfl
      simp only [id, List.length_cons]
      rw [annotationsAt] at hrest
      rw [hrest]
      simp [hcov]

/-- C10.  Every Frame assembled by iteration is internally consistent: under
the Track invariants (non-empty, strictly increasing annotation lists), each
Annotation in the assembled list carries the Frame's own frame id, and the
list has exactly one entry per Track covering that frame id. -/
theorem c10_frame_consistency (tracks : List Track) (fid : ℤ)
    (hne : ∀ t ∈ tracks, t.annotations ≠ [])
    (hs : ∀ t ∈ tracks, FrameSorted t.annotations) :
    (∀ a ∈ annotationsAt tracks fid, a.frame_id = fid) ∧
    (annotationsAt tracks fid).length =
      tracks.countP (fun t => decide (covers t fid)) := by
  refine ⟨?_, annotationsAt_length tracks fid hne⟩
  intro a ha
  rw [annotationsAt] at ha
  obtain ⟨o, ho, hoa⟩ := List.mem_filterMap.mp ha
  obtain ⟨t, ht, hto⟩ := List.mem_map.mp ho
  refine getAnnot_frame t fid a ?_
  rw [hto]
  exact hoa

/-- Witness for C10 on the concrete one-track dataset at frame 5. -/
theorem c10_frame_consistency_witness :
    (∀ t ∈ [wTrack], t.annotations ≠ []) ∧
    (∀ t ∈ [wTrack], FrameSorted t.annotations) ∧
    ((∀ a ∈ annotationsAt [wTrack] 5, a.frame_id = 5) ∧
      (annotationsAt [wTrack] 5).length =
        List.countP (fun t => decide (covers t 5)) [wTrack]) :=
  ⟨by decide, by decide,
    c10_frame_consistency [wTrack] 5 (by decide) (by decide)⟩

/-- Shared helper: the surviving annotations are exactly the images of the
rectangle shapes, in order. -/
theorem buildAnnots_eq_filter_map (tid : ℤ) (lbl : String) (shapes : List RawShape) :
    buildAnnots tid lbl shapes =
      (shapes.filter (fun s => s.type == rectType)).map (shapeAnnot tid lbl) := by
  induction shapes with
  | nil => rfl
  | cons s rest ih =>
    rw [buildAnnots, List.filter_cons]
    by_cases h : s.type = rectType
    · rw [if_pos h, if_pos (by simp [h]), List.map_cons, ih]
    · rw [if_neg h, if_neg (by simp [h]), ih]

/-- C6.  During Dataset construction each rectangle shape becomes one
non-interpolated Annotation and every other shape type is dropped; a raw
track record with at least one rectangle yields a Track holding exactly its
rectangle annotations, and a record with no rectangle contributes no
Track. -/
theorem c6_rectangle_filtering (tid i : ℤ) (lbl : String)
    (shapes : List RawShape) (r : RawTrack) (rest : List RawTrack) :
    buildAnnots tid lbl shapes =
      (shapes.filter (fun s => s.type == rectType)).map (shapeAnnot tid lbl) ∧
    (∀ a ∈ buildAnnots tid lbl shapes, a.interpolated = false) ∧
    (r.shapes.filter (fun s => s.type == rectType) = [] →
      buildTracksFrom i (r :: rest) = buildTracksFrom (i + 1) rest) ∧
    (r.shapes.filter (fun s => s.type == rectType) ≠ [] →
      buildTracksFrom i (r :: rest) =
        ⟨i, (r.shapes.filter (fun s => s.type == rectType)).map
            (shapeAnnot i r.label)⟩ :: buildTracksFrom (i + 1) rest) := by
  refine ⟨buildAnnots_eq_filter_map tid lbl shapes, ?_, ?_, ?_⟩
  · intro a ha
    rw [buildAnnots_eq_filter_map] at ha
    obtain ⟨s, _, rfl⟩ := List.mem_map.mp ha
    rfl
  · intro hfil
    rw [buildTracksFrom,
      if_pos (by rw [buildAnnots_eq_filter_map, hfil]; rfl)]
  · intro hfil
    rw [buildTracksFrom, if_neg ?_, buildAnnots_eq_filter_map]
    rw [buildAnnots_eq_filter_map]
    intro hmap
    exact hfil (List.map_eq_nil_iff.mp hmap)

/-- Witness for C6: the mixed record keeps exactly its rectangle annotation
and stays in the track list. -/
theorem c6_rectangle_filtering_witness :
    rMixed.shapes.filter (fun s => s.type == rectType) ≠ [] ∧
    buildTracksFrom 0 [rMixed] =
      ⟨0, (rMixed.shapes.filter (fun s => s.type == rectType)).map
          (shapeAnnot 0 rMixed.label)⟩ :: buildTracksFrom 1 [] :=
  ⟨by decide, (c6_rectangle_filtering 0 0 "" [] rMixed []).2.2.2 (by decide)⟩

/-- Shared helper: bounds of the running maximum over `foldl max`. -/
theorem foldl_max_bounds (l : List Track) (init : ℤ) :
    init ≤ l.foldl (fun m u => max m u.last_frame_id) init ∧
    (∀ t ∈ l, t.last_frame_id ≤ l.foldl (fun m u => max m u.last_frame_id) init) ∧
    (l.foldl (fun m u => max m u.last_frame_id) init = init ∨
      ∃ t ∈ l, l.foldl (fun m u => max m u.last_frame_id) init = t.last_frame_id) := by
  induction l generalizing init with
  | nil => simp
  | cons x xs ih =>
    simp only [List.foldl_cons]
    obtain ⟨h1, h2, h3⟩ := ih (max init x.last_frame_id)
    refine ⟨le_trans (le_max_left _ _) h1, ?_, ?_⟩
    · intro t ht
      cases List.mem_cons.mp ht with
      | inl h => subst h; exact le_trans (le_max_right _ _) h1
      | inr h => exact h2 t h
    · cases h3 with
      | inl h =>
        by_cases hc : x.last_frame_id ≤ init
        · left
          rw [h, max_eq_left hc]
        · right
          exact ⟨x, by simp, by rw [h, max_eq_right (le_of_not_le hc)]⟩
      | inr h =>
        obtain ⟨t, ht, he⟩ := h
        exact Or.inr ⟨t, List.mem_cons_of_mem x ht, he⟩

/-- Shared helper: the constructed track list is empty exactly when no raw
record contains a rectangle shape. -/
theorem buildTracksFrom_eq_nil_iff (raws : List RawTrack) (i : ℤ) :
    buildTracksFrom i raws = [] ↔
      ∀ r ∈ raws, r.shapes.filter (fun s => s.type == rectType) = [] := by
  induction raws generalizing i with
  | nil => simp [buildTracksFrom]
  | cons r rest ih =>
    rw [buildTracksFrom]
    by_cases h : buildAnnots i r.label r.shapes = []
    · rw [if_pos h, ih (i + 1)]
      have hr : r.shapes.filter (fun s => s.type == rectType) = [] := by
        rw [buildAnnots_eq_filter_map] at h
        exact List.map_eq_nil_iff.mp h
      constructor
      · intro hall q hq
        cases List.mem_cons.mp hq with
        | inl hqr => subst hqr; exact hr
        | inr hqrest => exact hall q hqrest
      · intro hall q hq
        exact hall q (List.mem_cons_of_mem r hq)
    · rw [if_neg h]
      constructor
      · intro hcons
        cases hcons
      · intro hall
        exfalso
        refine h ?_
        rw [buildAnnots_eq_filter_map, hall r (by simp)]
        rfl

/-- C9.  `Dataset.__init__` raises (ValueError from `max` over an empty
sequence) exactly when no raw track record contains a rectangle shape;
consequently every successfully constructed Dataset has at least one Track,
and its `last_frame_id` is the maximum `last_frame_id` over its tracks. -/
theorem c9_empty_tracks_raises (raws : List RawTrack) :
    (datasetInit raws = Except.error valueErrorMsg ↔
      ∀ r ∈ raws, r.shapes.filter (fun s => s.type == rectType) = []) ∧
    (∀ d, datasetInit raws = Except.ok d →
      d.tracks ≠ [] ∧
      (∀ t ∈ d.tracks, t.last_frame_id ≤ d.last_frame_id) ∧
      (∃ t ∈ d.tracks, t.last_frame_id = d.last_frame_id)) := by
  cases htr : buildTracks raws with
  | nil =>
    have herr : datasetInit raws = Except.error valueErrorMsg := by
      rw [datasetInit, htr]
      rfl
    refine ⟨?_, ?_⟩
    · rw [herr]
      simp only [true_iff]
      exact (buildTracksFrom_eq_nil_iff raws 0).mp htr
    · intro d hok
      rw [herr] at hok
      cases hok
  | cons t ts =>
    have hok : datasetInit raws =
        Except.ok ⟨t :: ts, ts.foldl (fun m u => max m u.last_frame_id)
          t.last_frame_id⟩ := by
      rw [datasetInit, htr]
      rfl
    refine ⟨?_, ?_⟩
    · rw [hok]
      constructor
      · intro habs
        cases habs
      · intro hall
        exfalso
        have : buildTracks raws = [] :=
          (buildTracksFrom_eq_nil_iff raws 0).mpr hall
        rw [htr] at this
        cases this
    · intro d hd
      rw [hok] at hd
      obtain rfl : (⟨t :: ts, ts.foldl (fun m u => max m u.last_frame_id)
          t.last_frame_id⟩ : Dataset) = d := Except.ok.inj hd
      obtain ⟨h1, h2, h3⟩ := foldl_max_bounds ts t.last_frame_id
      refine ⟨by simp, ?_, ?_⟩
      · intro u hu
        cases List.mem_cons.mp hu with
        | inl h => subst h; exact h1
        | inr h => exact h2 u h
      · cases h3 with
        | inl h => exact ⟨t, by simp, h.symm⟩
        | inr h =>
          obtain ⟨u, hu, he⟩ := h
          exact ⟨u, List.mem_cons_of_mem t hu, he.symm⟩

/-- Witness for C9 on a concrete raw record list: a single record whose only
shape is a polygon makes construction raise. -/
theorem c9_empty_tracks_raises_witness :
    (datasetInit [⟨"car", [sPoly]⟩] = Except.error valueErrorMsg ↔
      ∀ r ∈ [(⟨"car", [sPoly]⟩ : RawTrack)],
        r.shapes.filter (fun s => s.type == rectType) = []) ∧
    (∀ d, datasetInit [⟨"car", [sPoly]⟩] = Except.ok d →
      d.tracks ≠ [] ∧
      (∀ t ∈ d.tracks, t.last_frame_id ≤ d.last_frame_id) ∧
      (∃ t ∈ d.tracks, t.last_frame_id = d.last_frame_id)) :=
  c9_empty_tracks_raises [⟨"car", [sPoly]⟩]

/-- C3, failing input.  On an exhausted video (position at or past the frame
count) `CV2Reader.read_frame` returns `(None, None)`; feeding that into
`Dataset.__next__` reaches the comparison `None > self.last_frame_id`, which
raises TypeError — iteration does not terminate cleanly with StopIteration
as the claim states. -/
theorem c3_end_of_stream_raises :
    (cv2ReadFrame ⟨3, 3⟩).1 = (none, none) ∧
    datasetNext dEx (cv2ReadFrame ⟨3, 3⟩).1 = NextOutcome.typeError ∧
    NextOutcome.typeError ≠ NextOutcome.stop := by
  refine ⟨rfl, rfl, ?_⟩
  decide

/-- Part of C3 that does hold: a yielded Frame never carries a frame id
beyond `last_frame_id`, and a frame id beyond it stops iteration. -/
theorem datasetNext_yield_le (d : Dataset) (read : Option ℤ × Option Unit)
    (f : FrameOut) (h : datasetNext d read = NextOutcome.yield f) :
    f.frame_id ≤ d.last_frame_id := by
  obtain ⟨r1, r2⟩ := read
  cases r1 with
  | none => simp [datasetNext] at h
  | some fid =>
    simp only [datasetNext] at h
    split at h
    · cases h
    · next hgt =>
      obtain rfl : (⟨fid, r2, annotationsAt d.tracks fid⟩ : FrameOut) = f :=
        NextOutcome.yield.inj h
      simpa using le_of_not_lt hgt

/-- Shared helper: membership in `frameIdsFromTo` is exactly the closed
interval. -/
theorem mem_frameIdsFromTo (c last x : ℤ) :
    x ∈ frameIdsFromTo c last ↔ c ≤ x ∧ x ≤ last := by
  generalize hn : (last + 1 - c).toNat = n
  induction n generalizing c with
  | zero =>
    rw [frameIdsFromTo, if_pos (by omega)]
    simp
    omega
  | succ k ih =>
    rw [frameIdsFromTo, if_neg (by omega), List.mem_cons, ih (c + 1) (by omega)]
    omega

/-- Shared helper: each step of `dummyRun` agrees with `Dataset.__next__`
applied to the dummy reader's output. -/
theorem dummyRun_step (d : Dataset) (c : ℤ) :
    dummyRun d c =
      (match datasetNext d (dummyReadFrame c).1 with
       | NextOutcome.yield f => f :: dummyRun d (dummyReadFrame c).2
       | NextOutcome.stop => []
       | NextOutcome.typeError => []) := by
  rw [dummyRun, datasetNext]
  by_cases h : c > d.last_frame_id
  · rw [if_pos h]
    simp [dummyReadFrame, h]
  · rw [if_neg h]
    simp [dummyReadFrame, h]

/-- Shared helper: the frame ids yielded by `dummyRun` are exactly
`c, ..., last_frame_id`. -/
theorem dummyRun_frame_ids (d : Dataset) (c : ℤ) :
    (dummyRun d c).map (fun f => f.frame_id) =
      frameIdsFromTo c d.last_frame_id := by
  generalize hn : (d.last_frame_id + 1 - c).toNat = n
  induction n generalizing c with
  | zero =>
    rw [dummyRun, if_pos (by omega), frameIdsFromTo, if_pos (by omega)]
    rfl
  | succ k ih =>
    rw [dummyRun, if_neg (by omega), frameIdsFromTo, if_neg (by omega),
      List.map_cons, ih (c + 1) (by omega)]

/-- C7.  The dummy reader substituted when `load_video = false` starts at
counter 0, restarts at the target of a seek, and on every call returns the
sequential counter with no image — never `None`, so it never signals
end-of-stream; iterating `Dataset.__next__` with it from cursor `c`
terminates only through the `frame_id > last_frame_id` check, after yielding
exactly the frame ids `c, ..., last_frame_id` (each with no image). -/
theorem c7_dummy_reader_iteration (d : Dataset) (c s fid : ℤ) :
    dummyInitState = 0 ∧
    dummySeek s fid = fid ∧
    dummyReadFrame s = ((some s, none), s + 1) ∧
    dummyRun d c =
      (match datasetNext d (dummyReadFrame c).1 with
       | NextOutcome.yield f => f :: dummyRun d (dummyReadFrame c).2
       | NextOutcome.stop => []
       | NextOutcome.typeError => []) ∧
    (dummyRun d c).map (fun f => f.frame_id) = frameIdsFromTo c d.last_frame_id ∧
    (∀ x : ℤ, x ∈ (dummyRun d c).map (fun f => f.frame_id) ↔
      c ≤ x ∧ x ≤ d.last_frame_id) ∧
    (∀ f ∈ dummyRun d c, f.image = none) := by
  refine ⟨rfl, rfl, rfl, dummyRun_step d c, dummyRun_frame_ids d c, ?_, ?_⟩
  · intro x
    rw [dummyRun_frame_ids d c]
    exact mem_frameIdsFromTo c d.last_frame_id x
  · intro f hf
    generalize hn : (d.last_frame_id + 1 - c).toNat = n at hf
    induction n generalizing c with
    | zero =>
      rw [dummyRun, if_pos (by omega)] at hf
      cases hf
    | succ k ih =>
      rw [dummyRun, if_neg (by omega)] at hf
      cases List.mem_cons.mp hf with
      | inl h => subst h; rfl
      | inr h => exact ih (c + 1) h (by omega)

/-- C8.  `Dataset.close` is idempotent for both readers: the first close
succeeds (never raises), and closing the resulting state again — any number
of further times, since the state is unchanged — succeeds with no effects
and the same state. -/
theorem c8_close_idempotent (r : ReaderState) :
    ∃ r1 acts, datasetClose r = Except.ok (r1, acts) ∧
      datasetClose r1 = Except.ok (r1, []) := by
  cases r with
  | cv2 cap =>
    cases cap with
    | none => exact ⟨ReaderState.cv2 none, [], rfl, rfl⟩
    | some c => exact ⟨ReaderState.cv2 none, ["release"], rfl, rfl⟩
  | dummy s => exact ⟨ReaderState.dummy s, [], rfl, rfl⟩
